import Mathlib

/-!
Verification development for an S3-compatible object-store client with an
OpenPGP encryption layer and a resumable large-file transfer engine.

The definitions below are shallow embeddings of the Rust source:
* `Crypto` embeds `src/crypto.rs` (`PgpHandler`),
* `R2C` embeds `src/r2_client.rs` (`R2Client::sign_request`),
* `LFH` embeds `src/large_file_handler.rs` (`LargeFileHandler`),
* `MPU` embeds `src/multipart_upload.rs` (`MultipartUploader`).

Bytes are modelled as `List Nat`; external-library calls (SHA-256, HMAC,
OpenPGP parsing) are parameters or abstract inputs, since only their
composition belongs to this codebase.
-/

namespace Crypto

/-- Metadata extracted from a parsed public key (`KeyInfo` in `crypto.rs`). -/
structure KeyInfo where
  name : String
  email : String
  keyId : String
  fingerprint : String
deriving Repr, DecidableEq

/-- A parsed private key as the handler sees it: its key id together with
whether `unlock` with the supplied passphrase would succeed.  Parsing and
unlocking themselves happen in the external `pgp` crate, so the parse
outcome of each armored block is an input to the embedding. -/
structure SecretKeyModel where
  keyId : String
  unlockOk : Bool
deriving Repr, DecidableEq

/-- Mutable state of `PgpHandler`: the parallel `public_keys`/`key_info`
lists are represented by the `key_info` list (the claims speak about the
loaded key list), plus the optional secret key and stored passphrase. -/
structure PgpState where
  keyInfo : List KeyInfo
  secretKey : Option SecretKeyModel
  storedPassphrase : Option String
deriving Repr, DecidableEq

/-- `PgpHandler::new`. -/
def PgpState.new : PgpState := ⟨[], none, none⟩

/-- `PgpHandler::load_public_key` (crypto.rs:33-44): parse a single armored
key; on success push it onto the loaded lists with no duplicate check.
The parse result of the external library is the `Option KeyInfo` input. -/
def loadPublicKey (st : PgpState) (parsed : Option KeyInfo) : PgpState :=
  match parsed with
  | none => st
  | some ki => { st with keyInfo := st.keyInfo ++ [ki] }

/-- One step of the marker-based block loop in
`load_public_keys_from_bytes` (crypto.rs:182-212): a successfully parsed
block is appended only when its fingerprint is not already present. -/
def loadBlockStep (acc : PgpState × List KeyInfo) (blk : Option KeyInfo) :
    PgpState × List KeyInfo :=
  match blk with
  | none => acc
  | some ki =>
    if acc.1.keyInfo.any (fun k => k.fingerprint == ki.fingerprint) then acc
    else ({ acc.1 with keyInfo := acc.1.keyInfo ++ [ki] }, acc.2 ++ [ki])

/-- `PgpHandler::load_public_keys_from_bytes` (crypto.rs:155-248).
`blocks` are the parse results of the marker-extracted key blocks;
`armorMany` is the result of the `from_armor_many` fallback (`none` when
that parse fails, otherwise the per-key results); `armorSingle` is the
result of the final `from_armor_single` fallback.  The marker pass and the
`from_armor_many` pass deduplicate by fingerprint; the single-key fallback
pushes without a duplicate check (crypto.rs:231-238). -/
def loadPublicKeysFromBytes (st : PgpState) (blocks : List (Option KeyInfo))
    (armorMany : Option (List (Option KeyInfo))) (armorSingle : Option KeyInfo) :
    Except String (PgpState × List KeyInfo) :=
  let markerRes := blocks.foldl loadBlockStep (st, [])
  let res :=
    if markerRes.2.isEmpty then
      match armorMany with
      | some keyResults => keyResults.foldl loadBlockStep (st, [])
      | none =>
        match armorSingle with
        | some ki => ({ st with keyInfo := st.keyInfo ++ [ki] }, [ki])
        | none => (st, [])
    else markerRes
  if res.2.isEmpty then .error ("No valid keys found in keyring")
  else .ok res

/-- The private-key scan of `PgpHandler::load_keyring` (crypto.rs:315-344):
the first block that parses wins; the unlock attempt's outcome is only
logged and never prevents retention. -/
def firstParsedSecret : List (Option SecretKeyModel) → Option SecretKeyModel
  | [] => none
  | some sk :: _ => some sk
  | none :: rest => firstParsedSecret rest

/-- `PgpHandler::load_keyring` (crypto.rs:278-351).  `pubBlocks`,
`armorMany`, `armorSingle` feed the public-key pass exactly as in
`loadPublicKeysFromBytes` (whose error is swallowed by the `if let Ok`);
`privBlocks` are the parse results of the private key blocks. -/
def loadKeyring (st : PgpState) (pubBlocks : List (Option KeyInfo))
    (armorMany : Option (List (Option KeyInfo))) (armorSingle : Option KeyInfo)
    (privBlocks : List (Option SecretKeyModel)) (passphrase : Option String) :
    Except String (PgpState × List KeyInfo × Bool) :=
  let st0 := match passphrase with
    | some p => { st with storedPassphrase := some p }
    | none => st
  let (st1, publicKeysLoaded) :=
    match loadPublicKeysFromBytes st0 pubBlocks armorMany armorSingle with
    | .ok r => r
    | .error _ => (st0, [])
  let (st2, privateKeyLoaded) :=
    match firstParsedSecret privBlocks with
    | some sk => ({ st1 with secretKey := some sk }, true)
    | none => (st1, false)
  if publicKeysLoaded.isEmpty && !privateKeyLoaded then
    .error ("No valid keys found in keyring")
  else
    .ok (st2, publicKeysLoaded, privateKeyLoaded)

/-- Byte string of the armor header `-----BEGIN PGP MESSAGE-----`. -/
def armorHeader : List Nat := "-----BEGIN PGP MESSAGE-----".data.map Char.toNat

/-- `PgpHandler::is_pgp_encrypted` (crypto.rs:379-391): armor header, or
length above 2 with leading byte `0x85` or `0x84`. -/
def is_pgp_encrypted (data : List Nat) : Bool :=
  if armorHeader.isPrefixOf data then true
  else if data.length > 2 &&
      (data.headD 0 == 0x85 || data.headD 0 == 0x84) then true
  else false

/-- `PgpHandler::decrypt` (crypto.rs:393-431).  The body past the
`is_pgp_encrypted` guard (pgp-crate attempt, then the GPG fallback) lives
in external libraries and processes; it is the `inner` parameter. -/
def decrypt (inner : List Nat → Except String (List Nat)) (encryptedData : List Nat) :
    Except String (List Nat) :=
  if !is_pgp_encrypted encryptedData then .ok encryptedData
  else inner encryptedData

/-- The recognizer the claim describes (spec wording, for comparison with
`is_pgp_encrypted`): armor header, or a leading byte anywhere in the
`0x84`-`0x8c` range. -/
def is_pgp_encrypted_claimed (data : List Nat) : Bool :=
  armorHeader.isPrefixOf data ||
    match data.head? with
    | some b => decide (0x84 ≤ b) && decide (b ≤ 0x8c)
    | none => false

end Crypto

namespace R2C

/-- Bytes of a string (`as_bytes` in the source; code points stand in for
UTF-8 bytes, which agree on the ASCII data the signer builds). -/
def strBytes (s : String) : List Nat := s.data.map Char.toNat

/-- Lower-case hex digit of a value below 16 (the `hex` crate's alphabet). -/
def hexDigit (n : Nat) : Char :=
  if n < 10 then Char.ofNat (48 + n) else Char.ofNat (87 + n)

/-- `hex::encode`: two lower-case hex digits per byte. -/
def hexEncode (bs : List Nat) : String :=
  ⟨bs.foldr (fun b acc => hexDigit (b / 16 % 16) :: hexDigit (b % 16) :: acc) []⟩

/-- `path.find('?')` split (r2_client.rs:64-68): the part before the first
`?` and the part after it (the whole input and `""` when there is none). -/
def splitQuery : List Char → List Char × List Char
  | [] => ([], [])
  | c :: rest =>
    if c = '?' then ([], rest)
    else
      let r := splitQuery rest
      (c :: r.1, r.2)

/-- Everything `sign_request` computes, exposed for observation: the three
inserted headers plus the intermediate strings and keys. -/
structure SignOutput where
  payloadHash : String
  host : String
  pathOnly : String
  queryString : String
  canonicalHeaders : String
  signedHeaders : String
  canonicalRequest : String
  credentialScope : String
  stringToSign : String
  signingKey : List Nat
  signature : String
  authorization : String
  xAmzDate : String
  xAmzContentSha256 : String
deriving Repr, DecidableEq

/-- `R2Client::sign_request` (r2_client.rs:41-116).  `sha256` and `hmac`
are the external `sha2`/`hmac` crates (`hmac key msg`); `dateStr` and
`dateShort` are the two timestamp formats computed on lines 49-50. -/
def sign_request (sha256 : List Nat → List Nat)
    (hmac : List Nat → List Nat → List Nat)
    (accessKeyId secretAccessKey accountId : String)
    (method path : String) (payload : List Nat)
    (dateStr dateShort : String) : SignOutput :=
  let payloadHash := hexEncode (sha256 payload)
  let host := accountId ++ ".r2.cloudflarestorage.com"
  let split := splitQuery path.data
  let pathOnly : String := ⟨split.1⟩
  let queryString : String := ⟨split.2⟩
  let canonicalHeaders :=
    "host:" ++ host ++ "\nx-amz-content-sha256:" ++ payloadHash ++
      "\nx-amz-date:" ++ dateStr
  let signedHeaders := "host;x-amz-content-sha256;x-amz-date"
  let canonicalRequest :=
    method ++ "\n" ++ pathOnly ++ "\n" ++ queryString ++ "\n" ++
      canonicalHeaders ++ "\n\n" ++ signedHeaders ++ "\n" ++ payloadHash
  let canonicalRequestHash := hexEncode (sha256 (strBytes canonicalRequest))
  let credentialScope := dateShort ++ "/auto/s3/aws4_request"
  let stringToSign :=
    "AWS4-HMAC-SHA256\n" ++ dateStr ++ "\n" ++ credentialScope ++ "\n" ++
      canonicalRequestHash
  let key0 := strBytes ("AWS4" ++ secretAccessKey)
  let key := [strBytes dateShort, strBytes ("auto"), strBytes ("s3"),
      strBytes ("aws4_request")].foldl (fun k item => hmac k item) key0
  let signature := hexEncode (hmac key (strBytes stringToSign))
  let authorization :=
    "AWS4-HMAC-SHA256 Credential=" ++ accessKeyId ++ "/" ++ credentialScope ++
      ", SignedHeaders=" ++ signedHeaders ++ ", Signature=" ++ signature
  { payloadHash := payloadHash
    host := host
    pathOnly := pathOnly
    queryString := queryString
    canonicalHeaders := canonicalHeaders
    signedHeaders := signedHeaders
    canonicalRequest := canonicalRequest
    credentialScope := credentialScope
    stringToSign := stringToSign
    signingKey := key
    signature := signature
    authorization := authorization
    xAmzDate := dateStr
    xAmzContentSha256 := payloadHash }

end R2C

namespace LFH

/-- `CHUNK_SIZE` (large_file_handler.rs:12). -/
def CHUNK_SIZE : Nat := 100 * 1024 * 1024

/-- `MAX_RETRIES` (large_file_handler.rs:14). -/
def MAX_RETRIES : Nat := 10

/-- `INITIAL_RETRY_DELAY` (large_file_handler.rs:15). -/
def INITIAL_RETRY_DELAY : Nat := 1000

/-- `MAX_RETRY_DELAY` (large_file_handler.rs:16). -/
def MAX_RETRY_DELAY : Nat := 60000

/-- `CompletedPart` (large_file_handler.rs:36-43); the timestamp is a
plain label here. -/
structure CompletedPart where
  partNumber : Nat
  etag : String
  size : Nat
  checksum : String
  uploadedAt : Nat
deriving Repr, DecidableEq

/-- `UploadSession` (large_file_handler.rs:22-34); paths are strings. -/
structure UploadSession where
  originalFile : String
  encryptedFile : String
  r2Key : String
  uploadId : String
  totalSize : Nat
  chunkSize : Nat
  completedParts : List CompletedPart
  encryptionComplete : Bool
  encryptionChecksum : String
  startedAt : Nat
deriving Repr, DecidableEq

/-- `RetryConfig` (large_file_handler.rs:52-58); `exponential_base` is an
`f64` in the source, modelled exactly over `ℚ`. -/
structure RetryConfig where
  maxRetries : Nat
  initialDelayMs : Nat
  maxDelayMs : Nat
  exponentialBase : ℚ
deriving Repr, DecidableEq

/-- `RetryConfig::default` (large_file_handler.rs:60-69). -/
def RetryConfig.default : RetryConfig :=
  ⟨MAX_RETRIES, INITIAL_RETRY_DELAY, MAX_RETRY_DELAY, 2⟩

/-- `LargeFileHandler::create_new_session` (large_file_handler.rs:425-446):
fresh session for the source file's current size, no parts, encryption not
complete. -/
def create_new_session (filePath encryptedFile : String) (fileSize : Nat)
    (r2Key : String) (now : Nat) : UploadSession :=
  { originalFile := filePath
    encryptedFile := encryptedFile
    r2Key := r2Key
    uploadId := ""
    totalSize := fileSize
    chunkSize := CHUNK_SIZE
    completedParts := []
    encryptionComplete := false
    encryptionChecksum := ""
    startedAt := now }

/-- Filesystem facts `upload_large_file` consults while deciding whether
to honor a persisted session: the stored session (if its file exists), the
current source file's size, and existence/fresh checksum of the staged
encrypted file. -/
structure ResumeEnv where
  sessionOnDisk : Option UploadSession
  sourceSize : Nat
  stagedExists : Bool
  stagedChecksum : String
deriving Repr, DecidableEq

/-- Session-acceptance phase of `LargeFileHandler::upload_large_file`
(large_file_handler.rs:98-139): load the persisted session if its file
exists, otherwise create a fresh one; when `encryption_complete` is set,
require the staged file to exist and its freshly computed checksum to
equal the recorded one, failing with the source's error strings otherwise.
Returns the session to continue with and whether encryption still has to
run. -/
def sessionPhase (env : ResumeEnv) (filePath encryptedFile r2Key : String)
    (now : Nat) : Except String (UploadSession × Bool) :=
  let session :=
    match env.sessionOnDisk with
    | some s => s
    | none => create_new_session filePath encryptedFile env.sourceSize r2Key now
  if !session.encryptionComplete then
    .ok (session, true)
  else if !env.stagedExists then
    .error ("Encrypted file missing. Please restart upload.")
  else if env.stagedChecksum != session.encryptionChecksum then
    .error ("Encrypted file has been modified. Please restart upload.")
  else
    .ok (session, false)

/-- `LargeFileHandler::get_available_disk_space`
(large_file_handler.rs:487-492): a 1 TiB placeholder. -/
def get_available_disk_space : Nat := 1024 * 1024 * 1024 * 1024

/-- Outcome of the encryption step. -/
inductive EncOutcome where
  | diskSpaceError (required available : Nat)
  | chunkedError (msg : String)
  | inMemory (encrypted : List Nat)
deriving Repr, DecidableEq

/-- `LargeFileHandler::encrypt_large_file` (large_file_handler.rs:160-231)
with `encrypt_large_file_chunked` (large_file_handler.rs:234-252) inlined
at its only call site.  `(input_size as f64 * 1.1) as u64` is modelled
exactly as `⌊inputSize · 11/10⌋ = inputSize * 11 / 10`; `encrypt` is the
handler's OpenPGP encryption, applied to the whole file contents. -/
def encrypt_large_file (available inputSize : Nat)
    (contents : List Nat) (encrypt : List Nat → List Nat) : EncOutcome :=
  let requiredSpace := inputSize * 11 / 10
  if available < requiredSpace then
    .diskSpaceError requiredSpace available
  else if inputSize > 100 * 1024 * 1024 * 1024 then
    .chunkedError
      ("Chunked encryption for files >100GB not yet implemented. Please split your file.")
  else
    .inMemory (encrypt contents)

/-- Total chunk count (large_file_handler.rs:263):
`ceil(file_size / chunk_size)`. -/
def totalChunksOf (fileSize chunkSize : Nat) : Nat :=
  (fileSize + chunkSize - 1) / chunkSize

/-- The bytes-and-metadata of the part a given chunk number uploads
(large_file_handler.rs:280-309): offset `(n-1)·chunk`, size
`min chunk (file - offset)`, etag as acknowledged by the remote side,
checksum of the bytes read. -/
def mkPart (fileSize chunkSize : Nat) (etagOf checksumOf : Nat → String)
    (now : Nat) (chunkNum : Nat) : CompletedPart :=
  { partNumber := chunkNum
    etag := etagOf chunkNum
    size := min chunkSize (fileSize - (chunkNum - 1) * chunkSize)
    checksum := checksumOf chunkNum
    uploadedAt := now }

/-- The per-chunk loop of `upload_encrypted_file_with_retry`
(large_file_handler.rs:279-323), iterated over the remaining chunk count:
each iteration uploads part number `parts.length + 1`, appends the
acknowledged `CompletedPart`, and persists the session (the second result
collects the persisted `completed_parts` snapshots, one per chunk). -/
def runChunks (part : Nat → CompletedPart) :
    Nat → List CompletedPart → List CompletedPart × List (List CompletedPart)
  | 0, parts => (parts, [])
  | n + 1, parts =>
    let newParts := parts ++ [part (parts.length + 1)]
    let rest := runChunks part n newParts
    (rest.1, newParts :: rest.2)

/-- `LargeFileHandler::upload_encrypted_file_with_retry`
(large_file_handler.rs:255-334), its chunk loop: starting from the loaded
session's `completed_parts`, chunks `completed_parts.len() + 1` through
`total_chunks` are uploaded in order. -/
def upload_encrypted_file_with_retry (session : UploadSession)
    (etagOf checksumOf : Nat → String) (now : Nat) :
    List CompletedPart × List (List CompletedPart) :=
  let totalChunks := totalChunksOf session.totalSize session.chunkSize
  runChunks (mkPart session.totalSize session.chunkSize etagOf checksumOf now)
    (totalChunks - session.completedParts.length) session.completedParts

/-- The delay update after a failed attempt
(large_file_handler.rs:367-373): multiply by the exponential base (the
`f64 → u64` cast floors), cap at the maximum, then add jitter
`⌊delay · 0.1 · rand⌋` with `rand ∈ [0,1)`. -/
def nextDelay (cfg : RetryConfig) (delay : Nat) (rand : ℚ) : Nat :=
  let grown := min ⌊(delay : ℚ) * cfg.exponentialBase⌋₊ cfg.maxDelayMs
  grown + ⌊(grown : ℚ) * (1 / 10) * rand⌋₊

/-- `LargeFileHandler::retry_operation` (large_file_handler.rs:337-377).
`outcomes i` is the result of the `i`-th invocation of the wrapped
operation and `rands i` the `i`-th random draw; the fuel counts the
retries still allowed (the loop body runs once more when it reaches 0 and
then returns that attempt's result unconditionally, because
`retry_count > max_retries` holds).  Returns the final result together
with the list of slept delays. -/
def retryGo {E T : Type} (cfg : RetryConfig) (outcomes : Nat → Except E T)
    (rands : Nat → ℚ) : Nat → Nat → Nat → Except E T × List Nat
  | 0, idx, _ => (outcomes idx, [])
  | n + 1, idx, delay =>
    match outcomes idx with
    | .ok v => (.ok v, [])
    | .error _ =>
      let rest := retryGo cfg outcomes rands n (idx + 1) (nextDelay cfg delay (rands idx))
      (rest.1, delay :: rest.2)

/-- `retry_operation` run from its initial state: `retry_count = 0`,
`delay_ms = initial_delay_ms`, at most `max_retries + 1` attempts. -/
def retry_operation {E T : Type} (cfg : RetryConfig)
    (outcomes : Nat → Except E T) (rands : Nat → ℚ) : Except E T × List Nat :=
  retryGo cfg outcomes rands cfg.maxRetries 0 cfg.initialDelayMs

/-- The filesystem-safe key transform inside
`LargeFileHandler::get_session_path` (large_file_handler.rs:464-467):
`replace('/', "_").replace('\\', "_")` on a single-char pattern is a
character map. -/
def safeName (key : List Char) : List Char :=
  (key.map fun c => if c = '/' then '_' else c).map
    fun c => if c = '\\' then '_' else c

/-- `LargeFileHandler::get_session_path` (large_file_handler.rs:464-467):
`.r2_sessions` joined with `{safe_name}.session`. -/
def get_session_path (key : List Char) : List Char :=
  ".r2_sessions/".data ++ safeName key ++ ".session".data

end LFH

namespace MPU

/-- `UploadSession` (multipart_upload.rs:23-33). -/
structure UploadSession where
  uploadId : String
  bucket : String
  key : String
  parts : List LFH.CompletedPart
  totalSize : Nat
  partSize : Nat
  encrypted : Bool
  checksum : Option String
deriving Repr, DecidableEq

/-- `MultipartUploader::initiate_upload` (multipart_upload.rs:177-198):
fresh session with no parts. -/
def initiate_upload (uploadId bucket key : String) (fileSize partSize : Nat)
    (encrypted : Bool) : UploadSession :=
  { uploadId := uploadId
    bucket := bucket
    key := key
    parts := []
    totalSize := fileSize
    partSize := partSize
    encrypted := encrypted
    checksum := none }

/-- The session-resume decision of `MultipartUploader::upload_file`
(multipart_upload.rs:103-113): a loadable existing session is honored
exactly when its key and total size match the current upload; otherwise
(or when no session loads) a fresh session is initiated. -/
def resumeDecision (existing : Option UploadSession) (key : String)
    (fileSize : Nat) (fresh : UploadSession) : UploadSession :=
  match existing with
  | some s => if s.key == key && s.totalSize == fileSize then s else fresh
  | none => fresh

end MPU

/-! ## Theorems -/

/-- C6 counterexample: a binary stream with leading byte `0x8c` is inside
the `0x84`-`0x8c` range the claim describes, yet `is_pgp_encrypted`
rejects it (the code only accepts leading bytes `0x84` and `0x85`; the
`0x8c` case appears only in `decrypt_with_gpg`, crypto.rs:449). -/
theorem C6_counterexample :
    Crypto.is_pgp_encrypted [0x8c, 0, 0, 0] = false ∧
      Crypto.is_pgp_encrypted_claimed [0x8c, 0, 0, 0] = true := by
  decide

/-- C6 (amended): `is_pgp_encrypted` returns true exactly when the input
begins with the ASCII armor header, or has length above 2 and a leading
byte equal to `0x85` or `0x84`. -/
theorem C6_is_pgp_encrypted_amended (data : List Nat) :
    Crypto.is_pgp_encrypted data = true ↔
      (Crypto.armorHeader.isPrefixOf data = true ∨
        (2 < data.length ∧ (data.headD 0 = 0x85 ∨ data.headD 0 = 0x84))) := by
  unfold Crypto.is_pgp_encrypted
  cases h : Crypto.armorHeader.isPrefixOf data with
  | true => simp [h]
  | false => simp [h]

/-- C7: whenever `is_pgp_encrypted` does not recognize the input, `decrypt`
returns the input bytes unchanged, for every possible behaviour of the
decryption pipeline behind the guard. -/
theorem C7_decrypt_returns_unrecognized_unchanged
    (inner : List Nat → Except String (List Nat)) (data : List Nat)
    (h : Crypto.is_pgp_encrypted data = false) :
    Crypto.decrypt inner data = Except.ok data := by
  unfold Crypto.decrypt
  simp [h]

/-- C7 witness: the single byte `0x00` is not recognized as PGP data and
passes through `decrypt` unchanged even when the inner pipeline would
fail. -/
theorem C7_witness :
    Crypto.is_pgp_encrypted [0] = false ∧
      Crypto.decrypt (fun _ => Except.error ("boom")) [0] = Except.ok [0] :=
  ⟨by decide, C7_decrypt_returns_unrecognized_unchanged _ _ (by decide)⟩

/-- C10 counterexample: the distinct keys `a/b` and `a_b` are mapped by
`get_session_path` to the same session file, so transfers of these two
different keys share one session file. -/
theorem C10_counterexample :
    LFH.get_session_path ("a/b").data = LFH.get_session_path ("a_b").data ∧
      ("a/b" : String) ≠ "a_b" := by
  decide

/-- C10 (amended): two keys receive the same session file exactly when the
filesystem-safe transform (mapping `/` and `\` to `_`) identifies them;
keys whose sanitized names differ never share a session file. -/
theorem C10_session_path_amended (k1 k2 : List Char) :
    LFH.get_session_path k1 = LFH.get_session_path k2 ↔
      LFH.safeName k1 = LFH.safeName k2 := by
  constructor
  · intro h
    unfold LFH.get_session_path at h
    exact List.append_cancel_left (List.append_cancel_right h)
  · intro h
    unfold LFH.get_session_path
    rw [h]

/-- Helper for C4: the marker-based block loop preserves pairwise-distinct
fingerprints in the loaded key list, since a parsed block is appended only
after the fingerprint check. -/
theorem loadBlockStep_fold_nodup (blocks : List (Option Crypto.KeyInfo)) :
    ∀ acc : Crypto.PgpState × List Crypto.KeyInfo,
      (acc.1.keyInfo.map fun k => k.fingerprint).Nodup →
      ((blocks.foldl Crypto.loadBlockStep acc).1.keyInfo.map fun k => k.fingerprint).Nodup := by
  induction blocks with
  | nil => intro acc h; exact h
  | cons blk rest ih =>
    intro acc h
    apply ih
    cases blk with
    | none => exact h
    | some ki =>
      unfold Crypto.loadBlockStep
      by_cases hc : acc.1.keyInfo.any (fun k => k.fingerprint == ki.fingerprint)
      · simpa [hc] using h
      · simp only [hc, if_false, Bool.false_eq_true]
        simp only [List.any_eq_true, beq_iff_eq, not_exists, not_and] at hc
        have hnot : ki.fingerprint ∉ acc.1.keyInfo.map fun k => k.fingerprint := by
          intro hm
          rcases List.mem_map.mp hm with ⟨k, hk, he⟩
          exact hc k hk he
        simp [List.map_append, List.nodup_append, h, hnot]

/-- C4 counterexample: `load_public_key` performs no fingerprint check, so
loading the same public key twice through the single-key path leaves two
entries with the same fingerprint in the loaded key list, contradicting
the claim that every loading path deduplicates by fingerprint. -/
theorem C4_counterexample :
    ¬ (((Crypto.loadPublicKey
          (Crypto.loadPublicKey Crypto.PgpState.new
            (some ⟨"Alice", "alice@example.com", "AAAA", "FFFF"⟩))
          (some ⟨"Alice", "alice@example.com", "AAAA", "FFFF"⟩)).keyInfo.map
        fun k => k.fingerprint).Nodup) := by
  decide

/-- C4 (amended): the fingerprint is the deduplication key of the keyring
marker-based loading path: that path preserves pairwise-distinct
fingerprints, and loading a keyring holding two copies of the same public
key into a fresh handler yields exactly one entry.  (The single-key
`load_public_key` path and the final single-key fallback append without a
duplicate check.) -/
theorem C4_dedup_amended :
    (∀ (st : Crypto.PgpState) (blocks : List (Option Crypto.KeyInfo)),
        (st.keyInfo.map fun k => k.fingerprint).Nodup →
        ((blocks.foldl Crypto.loadBlockStep (st, [])).1.keyInfo.map
          fun k => k.fingerprint).Nodup) ∧
    (∀ ki : Crypto.KeyInfo,
        Crypto.loadPublicKeysFromBytes Crypto.PgpState.new [some ki, some ki] none none =
          Except.ok (⟨[ki], none, none⟩, [ki])) := by
  constructor
  · intro st blocks h
    exact loadBlockStep_fold_nodup blocks (st, []) h
  · intro ki
    simp [Crypto.loadPublicKeysFromBytes, Crypto.loadBlockStep, Crypto.PgpState.new]

/-- C4 witness: the dedup-preservation clause applied to a fresh handler
and a keyring containing the same key twice. -/
theorem C4_witness :
    ((Crypto.PgpState.new.keyInfo.map fun k => k.fingerprint).Nodup) ∧
      ((([some (⟨"A", "a", "I", "F"⟩ : Crypto.KeyInfo),
          some ⟨"A", "a", "I", "F"⟩].foldl Crypto.loadBlockStep
            (Crypto.PgpState.new, [])).1.keyInfo.map fun k => k.fingerprint).Nodup) :=
  ⟨by decide, C4_dedup_amended.1 _ _ (by decide)⟩

/-- C5 counterexample: with a passphrase supplied, the first private key
block parses but fails to unlock, and a later block would unlock; the
handler nevertheless retains the first block's key (`K1`, not unlocked),
contradicting the claim that the retained key is the first one that both
parses and unlocks. -/
theorem C5_counterexample :
    Crypto.loadKeyring Crypto.PgpState.new [] none none
        [some ⟨"K1", false⟩, some ⟨"K2", true⟩] (some ("p")) =
      Except.ok (⟨[], some ⟨"K1", false⟩, some ("p")⟩, [], true) ∧
    (⟨"K1", false⟩ : Crypto.SecretKeyModel).unlockOk = false :=
  ⟨rfl, rfl⟩

/-- C5 (amended): the first successfully parsed private key block is
retained regardless of whether unlocking with the supplied passphrase
succeeds (a failed unlock only logs a warning); every later block is
ignored, and the function reports that a secret key was loaded. -/
theorem C5_first_parsed_wins_amended :
    (∀ (sk : Crypto.SecretKeyModel) (rest : List (Option Crypto.SecretKeyModel)),
        Crypto.firstParsedSecret (some sk :: rest) = some sk) ∧
    (∀ (st : Crypto.PgpState) (pubBlocks : List (Option Crypto.KeyInfo))
        (armorMany : Option (List (Option Crypto.KeyInfo)))
        (armorSingle : Option Crypto.KeyInfo)
        (privBlocks : List (Option Crypto.SecretKeyModel))
        (passphrase : Option String) (sk : Crypto.SecretKeyModel),
        Crypto.firstParsedSecret privBlocks = some sk →
        ∃ st' pubs,
          Crypto.loadKeyring st pubBlocks armorMany armorSingle privBlocks passphrase =
            Except.ok (st', pubs, true) ∧ st'.secretKey = some sk) := by
  constructor
  · intro sk rest
    rfl
  · intro st pubBlocks armorMany armorSingle privBlocks passphrase sk h
    unfold Crypto.loadKeyring
    simp only [h]
    rcases hp : Crypto.loadPublicKeysFromBytes
        (match passphrase with
          | some p => { st with storedPassphrase := some p }
          | none => st) pubBlocks armorMany armorSingle with e | r
    · refine ⟨{ (match passphrase with
          | some p => { st with storedPassphrase := some p }
          | none => st) with secretKey := some sk }, [], ?_, rfl⟩
      simp [hp]
    · refine ⟨{ r.1 with secretKey := some sk }, r.2, ?_, rfl⟩
      simp [hp]

/-- C5 witness: a single parsed (and unlockable) private key block is
retained and reported. -/
theorem C5_witness :
    Crypto.firstParsedSecret [some ⟨"A", true⟩] = some ⟨"A", true⟩ ∧
      ∃ st' pubs,
        Crypto.loadKeyring Crypto.PgpState.new [] none none [some ⟨"A", true⟩] none =
          Except.ok (st', pubs, true) ∧ st'.secretKey = some ⟨"A", true⟩ :=
  ⟨rfl, C5_first_parsed_wins_amended.2 _ _ _ _ _ _ _ rfl⟩

/-- C2 counterexample: a persisted session whose recorded total size (5)
differs from the current source file's size (7) is honored unchanged by
`upload_large_file` — the code never compares the two — contradicting the
claim that a session is honored only if its recorded total size matches
the current source file. -/
theorem C2_counterexample :
    LFH.sessionPhase
        { sessionOnDisk := some
            { originalFile := "f", encryptedFile := "e", r2Key := "k",
              uploadId := "u", totalSize := 5, chunkSize := LFH.CHUNK_SIZE,
              completedParts := [], encryptionComplete := true,
              encryptionChecksum := "abc", startedAt := 0 },
          sourceSize := 7, stagedExists := true, stagedChecksum := "abc" }
        "f" "e" "k" 0 =
      Except.ok
        ({ originalFile := "f", encryptedFile := "e", r2Key := "k",
           uploadId := "u", totalSize := 5, chunkSize := LFH.CHUNK_SIZE,
           completedParts := [], encryptionComplete := true,
           encryptionChecksum := "abc", startedAt := 0 }, false) ∧
    (5 : Nat) ≠ 7 :=
  ⟨rfl, by decide⟩

/-- C2 (amended): `upload_large_file` honors an existing session with no
size comparison at all; once `encryption_complete` is set it requires the
staged file to exist with its fresh checksum equal to the recorded one,
and on a mismatch it fails with the modified-file error instead of
discarding the session — so a staged file modified after
`encryption_complete` makes the next resume fail rather than upload the
modified data.  The honour-only-on-matching-total-size behaviour (with a
fresh start otherwise) exists only in `MultipartUploader::upload_file`,
which performs no checksum check. -/
theorem C2_session_resume_amended :
    (∀ (env : LFH.ResumeEnv) (fp ef key : String) (now : Nat)
        (s0 : LFH.UploadSession),
        env.sessionOnDisk = some s0 → s0.encryptionComplete = false →
        LFH.sessionPhase env fp ef key now = Except.ok (s0, true)) ∧
    (∀ (env : LFH.ResumeEnv) (fp ef key : String) (now : Nat)
        (s0 : LFH.UploadSession),
        env.sessionOnDisk = some s0 → s0.encryptionComplete = true →
        env.stagedExists = true → env.stagedChecksum = s0.encryptionChecksum →
        LFH.sessionPhase env fp ef key now = Except.ok (s0, false)) ∧
    (∀ (env : LFH.ResumeEnv) (fp ef key : String) (now : Nat)
        (s0 : LFH.UploadSession),
        env.sessionOnDisk = some s0 → s0.encryptionComplete = true →
        env.stagedExists = true → env.stagedChecksum ≠ s0.encryptionChecksum →
        LFH.sessionPhase env fp ef key now =
          Except.error ("Encrypted file has been modified. Please restart upload.")) ∧
    (∀ (env : LFH.ResumeEnv) (fp ef key : String) (now : Nat)
        (s0 : LFH.UploadSession),
        env.sessionOnDisk = some s0 → s0.encryptionComplete = true →
        env.stagedExists = false →
        LFH.sessionPhase env fp ef key now =
          Except.error ("Encrypted file missing. Please restart upload.")) ∧
    (∀ (s : MPU.UploadSession) (key : String) (fileSize : Nat)
        (fresh : MPU.UploadSession),
        (s.key = key → s.totalSize = fileSize →
          MPU.resumeDecision (some s) key fileSize fresh = s) ∧
        (s.totalSize ≠ fileSize →
          MPU.resumeDecision (some s) key fileSize fresh = fresh)) := by
  refine ⟨?_, ?_, ?_, ?_, ?_⟩
  · intro env fp ef key now s0 hs he
    unfold LFH.sessionPhase
    rw [hs]
    simp [he]
  · intro env fp ef key now s0 hs he hst hck
    unfold LFH.sessionPhase
    rw [hs]
    simp [he, hst, hck]
  · intro env fp ef key now s0 hs he hst hne
    unfold LFH.sessionPhase
    rw [hs]
    simp [he, hst, bne_iff_ne, hne]
  · intro env fp ef key now s0 hs he hst
    unfold LFH.sessionPhase
    rw [hs]
    simp [he, hst]
  · intro s key fileSize fresh
    constructor
    · intro h1 h2
      unfold MPU.resumeDecision
      simp [h1, h2]
    · intro hne
      unfold MPU.resumeDecision
      simp [hne]

/-- C2 witness: a session with `encryption_complete` set whose staged file
now hashes to `xyz` instead of the recorded `abc` makes the resume fail
with the modified-file error. -/
theorem C2_witness :
    ("xyz" : String) ≠ "abc" ∧
      LFH.sessionPhase
          { sessionOnDisk := some
              { originalFile := "f", encryptedFile := "e", r2Key := "k",
                uploadId := "u", totalSize := 5, chunkSize := LFH.CHUNK_SIZE,
                completedParts := [], encryptionComplete := true,
                encryptionChecksum := "abc", startedAt := 0 },
            sourceSize := 5, stagedExists := true, stagedChecksum := "xyz" }
          "f" "e" "k" 0 =
        Except.error ("Encrypted file has been modified. Please restart upload.") :=
  ⟨by decide, C2_session_resume_amended.2.2.1 _ _ _ _ _ _ rfl rfl rfl (by decide)⟩

/-- Helper for C3: the chunk loop appends the parts for the next `n` chunk
numbers, in order, after the existing records. -/
theorem runChunks_fst (part : Nat → LFH.CompletedPart) :
    ∀ (n : Nat) (parts : List LFH.CompletedPart),
      (LFH.runChunks part n parts).1 =
        parts ++ (List.range' (parts.length + 1) n).map part := by
  intro n
  induction n with
  | zero => intro parts; simp [LFH.runChunks]
  | succ m ih =>
    intro parts
    show (LFH.runChunks part m (parts ++ [part (parts.length + 1)])).1 = _
    rw [ih (parts ++ [part (parts.length + 1)])]
    simp [List.range'_succ, List.append_assoc]

/-- Helper for C3: the chunk loop persists the session once per uploaded
chunk. -/
theorem runChunks_saves_length (part : Nat → LFH.CompletedPart) :
    ∀ (n : Nat) (parts : List LFH.CompletedPart),
      (LFH.runChunks part n parts).2.length = n := by
  intro n
  induction n with
  | zero => intro parts; simp [LFH.runChunks]
  | succ m ih =>
    intro parts
    show ((parts ++ [part (parts.length + 1)]) ::
        (LFH.runChunks part m (parts ++ [part (parts.length + 1)])).2).length = _
    simp [ih]

/-- Helper for C3: the `i`-th persisted snapshot is the starting records
followed by the first `i + 1` freshly uploaded parts. -/
theorem runChunks_saves_getD (part : Nat → LFH.CompletedPart) :
    ∀ (n : Nat) (parts : List LFH.CompletedPart) (i : Nat), i < n →
      (LFH.runChunks part n parts).2.getD i [] =
        parts ++ (List.range' (parts.length + 1) (i + 1)).map part := by
  intro n
  induction n with
  | zero => intro parts i hi; omega
  | succ m ih =>
    intro parts i hi
    show ((parts ++ [part (parts.length + 1)]) ::
        (LFH.runChunks part m (parts ++ [part (parts.length + 1)])).2).getD i [] = _
    cases i with
    | zero => simp [List.range'_succ]
    | succ j =>
      have hj : j < m := by omega
      show (LFH.runChunks part m (parts ++ [part (parts.length + 1)])).2.getD j [] = _
      rw [ih (parts ++ [part (parts.length + 1)]) j hj]
      simp [List.range'_succ, List.append_assoc]

/-- C3: resuming with `k` completed parts out of `n` total chunks uploads
exactly parts `k+1` through `n`, in strictly increasing part-number order,
appending one acknowledged `CompletedPart` per chunk and persisting the
session after each; the final list has `n` entries and after the `i`-th
acknowledged chunk the persisted list has `k + i + 1` entries, so the
completed-parts count always equals the number of acknowledged chunks and
resumption continues at `completed_parts.len() + 1`. -/
theorem C3_resume_uploads_remaining_parts (session : LFH.UploadSession)
    (etagOf checksumOf : Nat → String) (now : Nat) (k n : Nat)
    (hk : session.completedParts.length = k)
    (hn : LFH.totalChunksOf session.totalSize session.chunkSize = n)
    (hkn : k ≤ n) :
    (LFH.upload_encrypted_file_with_retry session etagOf checksumOf now).1 =
        session.completedParts ++
          (List.range' (k + 1) (n - k)).map
            (LFH.mkPart session.totalSize session.chunkSize etagOf checksumOf now) ∧
    ((LFH.upload_encrypted_file_with_retry session etagOf checksumOf now).1.drop k).map
        (fun p => p.partNumber) = List.range' (k + 1) (n - k) ∧
    (LFH.upload_encrypted_file_with_retry session etagOf checksumOf now).1.length = n ∧
    (LFH.upload_encrypted_file_with_retry session etagOf checksumOf now).2.length = n - k ∧
    (∀ i, i < n - k →
      ((LFH.upload_encrypted_file_with_retry session etagOf checksumOf now).2.getD i []).length =
        k + i + 1) := by
  have hfst :
      (LFH.upload_encrypted_file_with_retry session etagOf checksumOf now).1 =
        session.completedParts ++
          (List.range' (k + 1) (n - k)).map
            (LFH.mkPart session.totalSize session.chunkSize etagOf checksumOf now) := by
    unfold LFH.upload_encrypted_file_with_retry
    rw [hn, hk,
      runChunks_fst (LFH.mkPart session.totalSize session.chunkSize etagOf checksumOf now)
        (n - k) session.completedParts, hk]
  refine ⟨hfst, ?_, ?_, ?_, ?_⟩
  · rw [hfst, ← hk, List.drop_left, List.map_map]
    have : ((fun p => p.partNumber) ∘
        LFH.mkPart session.totalSize session.chunkSize etagOf checksumOf now) =
        fun i => i := by
      funext i
      rfl
    rw [this, List.map_id']
  · rw [hfst]
    simp [hk]
    omega
  · unfold LFH.upload_encrypted_file_with_retry
    rw [hn, hk,
      runChunks_saves_length
        (LFH.mkPart session.totalSize session.chunkSize etagOf checksumOf now)
        (n - k) session.completedParts]
  · intro i hi
    unfold LFH.upload_encrypted_file_with_retry
    rw [hn, hk,
      runChunks_saves_getD
        (LFH.mkPart session.totalSize session.chunkSize etagOf checksumOf now)
        (n - k) session.completedParts i hi, hk]
    simp [hk]
    omega

/-- C3 witness: a session of 12 bytes in 5-byte chunks (3 chunks total)
with one completed part resumes to a final list of 3 parts. -/
theorem C3_witness :
    ([(⟨1, "e1", 5, "c1", 0⟩ : LFH.CompletedPart)].length = 1) ∧
      LFH.totalChunksOf 12 5 = 3 ∧ (1 : Nat) ≤ 3 ∧
      (LFH.upload_encrypted_file_with_retry
          { originalFile := "f", encryptedFile := "e", r2Key := "k",
            uploadId := "u", totalSize := 12, chunkSize := 5,
            completedParts := [⟨1, "e1", 5, "c1", 0⟩],
            encryptionComplete := true, encryptionChecksum := "h",
            startedAt := 0 }
          (fun _ => "etag") (fun _ => "ck") 0).1.length = 3 :=
  ⟨rfl, rfl, by decide,
    (C3_resume_uploads_remaining_parts
      { originalFile := "f", encryptedFile := "e", r2Key := "k",
        uploadId := "u", totalSize := 12, chunkSize := 5,
        completedParts := [⟨1, "e1", 5, "c1", 0⟩],
        encryptionComplete := true, encryptionChecksum := "h",
        startedAt := 0 }
      (fun _ => "etag") (fun _ => "ck") 0 1 3 rfl rfl (by decide)).2.2.1⟩

/-- C9 counterexample: a 1 TiB input is strictly larger than the 100 GB
threshold, yet with the code's placeholder 1 TiB available-space value the
encryption step fails the disk-space pre-check (which runs first) and
surfaces a disk-space error, not the chunked-encryption-not-implemented
error the claim promises for every file above the threshold. -/
theorem C9_counterexample :
    LFH.encrypt_large_file LFH.get_available_disk_space
        (1024 * 1024 * 1024 * 1024) [] (fun d => d) =
      LFH.EncOutcome.diskSpaceError (1024 * 1024 * 1024 * 1024 * 11 / 10)
        LFH.get_available_disk_space ∧
    (1024 * 1024 * 1024 * 1024 : Nat) > 100 * 1024 * 1024 * 1024 :=
  ⟨rfl, by decide⟩

/-- C9 (amended): whenever the disk-space pre-check passes, inputs
strictly above the 100 GB threshold are refused with the clear
chunked-encryption-not-implemented / split-your-file error, and inputs at
or below the threshold take the buffered in-memory encryption path; with
the placeholder 1 TiB available-space value, the pre-check always passes
for inputs at or below the threshold. -/
theorem C9_threshold_guard_amended :
    (∀ (avail size : Nat) (contents : List Nat) (encrypt : List Nat → List Nat),
        size * 11 / 10 ≤ avail → size > 100 * 1024 * 1024 * 1024 →
        LFH.encrypt_large_file avail size contents encrypt =
          LFH.EncOutcome.chunkedError
            ("Chunked encryption for files >100GB not yet implemented. Please split your file.")) ∧
    (∀ (avail size : Nat) (contents : List Nat) (encrypt : List Nat → List Nat),
        size * 11 / 10 ≤ avail → size ≤ 100 * 1024 * 1024 * 1024 →
        LFH.encrypt_large_file avail size contents encrypt =
          LFH.EncOutcome.inMemory (encrypt contents)) ∧
    (∀ (size : Nat) (contents : List Nat) (encrypt : List Nat → List Nat),
        size ≤ 100 * 1024 * 1024 * 1024 →
        LFH.encrypt_large_file LFH.get_available_disk_space size contents encrypt =
          LFH.EncOutcome.inMemory (encrypt contents)) := by
  refine ⟨?_, ?_, ?_⟩
  · intro avail size contents encrypt hsp hgt
    unfold LFH.encrypt_large_file
    simp [Nat.not_lt.mpr hsp, hgt]
  · intro avail size contents encrypt hsp hle
    unfold LFH.encrypt_large_file
    simp [Nat.not_lt.mpr hsp, Nat.not_lt.mpr hle]
  · intro size contents encrypt hle
    have hsp : size * 11 / 10 ≤ LFH.get_available_disk_space := by
      have h1 : size * 11 / 10 ≤ 100 * 1024 * 1024 * 1024 * 11 / 10 :=
        Nat.div_le_div_right (Nat.mul_le_mul_right 11 hle)
      have h2 : 100 * 1024 * 1024 * 1024 * 11 / 10 ≤ LFH.get_available_disk_space := by
        decide
      exact le_trans h1 h2
    unfold LFH.encrypt_large_file
    simp [Nat.not_lt.mpr hsp, Nat.not_lt.mpr hle]

/-- C9 witness: with 1 TB free, a file one byte over the 100 GB threshold
is refused with the chunked-encryption error, and a 1 KB file is encrypted
in memory. -/
theorem C9_witness :
    ((100 * 1024 * 1024 * 1024 + 1) * 11 / 10 ≤ (1000000000000 : Nat)) ∧
      (100 * 1024 * 1024 * 1024 + 1 > (100 * 1024 * 1024 * 1024 : Nat)) ∧
      LFH.encrypt_large_file 1000000000000 (100 * 1024 * 1024 * 1024 + 1)
          [7] (fun d => d ++ d) =
        LFH.EncOutcome.chunkedError
          ("Chunked encryption for files >100GB not yet implemented. Please split your file.") ∧
      ((1024 : Nat) ≤ 100 * 1024 * 1024 * 1024) ∧
      LFH.encrypt_large_file LFH.get_available_disk_space 1024 [7] (fun d => d ++ d) =
        LFH.EncOutcome.inMemory [7, 7] :=
  ⟨by decide, by decide,
    C9_threshold_guard_amended.1 1000000000000 (100 * 1024 * 1024 * 1024 + 1)
      [7] (fun d => d ++ d) (by decide) (by decide),
    by decide,
    C9_threshold_guard_amended.2.2 1024 [7] (fun d => d ++ d) (by decide)⟩

/-- Helper for C8: a succeeding attempt ends the loop at once, with no
further sleeping, whatever fuel and delay state the loop is in. -/
theorem retryGo_ok {E T : Type} (cfg : LFH.RetryConfig)
    (outcomes : Nat → Except E T) (rands : Nat → ℚ) (idx : Nat) (v : T)
    (h : outcomes idx = Except.ok v) :
    ∀ (fuel delay : Nat),
      LFH.retryGo cfg outcomes rands fuel idx delay = (Except.ok v, []) := by
  intro fuel delay
  cases fuel with
  | zero => simp [LFH.retryGo, h]
  | succ n => simp [LFH.retryGo, h]

/-- Helper for C8: when every attempt fails, the loop performs exactly
`fuel + 1` attempts, sleeps `fuel` times, and returns the error of the
final attempt. -/
theorem retryGo_all_fail {E T : Type} (cfg : LFH.RetryConfig)
    (outcomes : Nat → Except E T) (rands : Nat → ℚ) (errs : Nat → E)
    (h : ∀ i, outcomes i = Except.error (errs i)) :
    ∀ (fuel idx delay : Nat),
      (LFH.retryGo cfg outcomes rands fuel idx delay).1 =
        Except.error (errs (idx + fuel)) ∧
      (LFH.retryGo cfg outcomes rands fuel idx delay).2.length = fuel := by
  intro fuel
  induction fuel with
  | zero =>
    intro idx delay
    exact ⟨by simp [LFH.retryGo, h idx], by simp [LFH.retryGo, h idx]⟩
  | succ n ih =>
    intro idx delay
    obtain ⟨h1, h2⟩ := ih (idx + 1) (LFH.nextDelay cfg delay (rands idx))
    have hidx : idx + 1 + n = idx + (n + 1) := by omega
    constructor
    · simp only [LFH.retryGo, h idx]
      rw [h1, hidx]
    · simp only [LFH.retryGo, h idx, List.length_cons]
      rw [h2]

/-- Helper for C8: when every attempt fails, the first slept delay is the
delay the loop was entered with. -/
theorem retryGo_sleeps_zero {E T : Type} (cfg : LFH.RetryConfig)
    (outcomes : Nat → Except E T) (rands : Nat → ℚ) (errs : Nat → E)
    (h : ∀ i, outcomes i = Except.error (errs i)) :
    ∀ (fuel idx delay : Nat), 0 < fuel →
      (LFH.retryGo cfg outcomes rands fuel idx delay).2.getD 0 0 = delay := by
  intro fuel idx delay hf
  cases fuel with
  | zero => omega
  | succ n => simp [LFH.retryGo, h idx]

/-- Helper for C8: when every attempt fails, each later slept delay is
obtained from the previous one by the grow-cap-jitter update. -/
theorem retryGo_sleeps_succ {E T : Type} (cfg : LFH.RetryConfig)
    (outcomes : Nat → Except E T) (rands : Nat → ℚ) (errs : Nat → E)
    (h : ∀ i, outcomes i = Except.error (errs i)) :
    ∀ (fuel idx delay j : Nat), j + 1 < fuel →
      (LFH.retryGo cfg outcomes rands fuel idx delay).2.getD (j + 1) 0 =
        LFH.nextDelay cfg
          ((LFH.retryGo cfg outcomes rands fuel idx delay).2.getD j 0)
          (rands (idx + j)) := by
  intro fuel
  induction fuel with
  | zero => intro idx delay j hj; omega
  | succ n ih =>
    intro idx delay j hj
    cases j with
    | zero =>
      have h0 :
          (LFH.retryGo cfg outcomes rands n (idx + 1)
            (LFH.nextDelay cfg delay (rands idx))).2.getD 0 0 =
            LFH.nextDelay cfg delay (rands idx) :=
        retryGo_sleeps_zero cfg outcomes rands errs h n (idx + 1) _ (by omega)
      simp only [LFH.retryGo, h idx, List.getD_cons_succ, List.getD_cons_zero,
        Nat.add_zero]
      exact h0
    | succ m =>
      have hm : m + 1 < n := by omega
      have hrec := ih (idx + 1) (LFH.nextDelay cfg delay (rands idx)) m hm
      have hidx : idx + 1 + m = idx + (m + 1) := by omega
      simp only [LFH.retryGo, h idx, List.getD_cons_succ]
      rw [hrec, hidx]

/-- Helper for C8: after a failure the next delay is at most the
configured maximum plus ten percent of it, for any random draw in
`[0, 1]`. -/
theorem nextDelay_le (cfg : LFH.RetryConfig) (delay : Nat) (r : ℚ)
    (h0 : 0 ≤ r) (h1 : r ≤ 1) :
    LFH.nextDelay cfg delay r ≤ cfg.maxDelayMs + cfg.maxDelayMs / 10 := by
  unfold LFH.nextDelay
  set g := min ⌊(delay : ℚ) * cfg.exponentialBase⌋₊ cfg.maxDelayMs with hg
  have hgle : g ≤ cfg.maxDelayMs := min_le_right _ _
  have hjit : ⌊(g : ℚ) * (1 / 10) * r⌋₊ ≤ g / 10 := by
    have hmul : (g : ℚ) * (1 / 10) * r ≤ (g : ℚ) * (1 / 10) := by
      have hnn : (0 : ℚ) ≤ (g : ℚ) * (1 / 10) := by positivity
      simpa using mul_le_mul_of_nonneg_left h1 hnn
    calc ⌊(g : ℚ) * (1 / 10) * r⌋₊ ≤ ⌊(g : ℚ) * (1 / 10)⌋₊ :=
          Nat.floor_le_floor hmul
      _ = g / 10 := by
          rw [mul_one_div, (by norm_num : (10 : ℚ) = ((10 : Nat) : ℚ)),
            Nat.floor_div_nat, Nat.floor_natCast]
  exact Nat.add_le_add hgle (le_trans hjit (Nat.div_le_div_right hgle))

/-- C8: a succeeding attempt's result is returned immediately with no
further sleeping; when every attempt fails, the loop performs
`max_retries + 1` attempts with `max_retries` sleeps and propagates the
final attempt's error unchanged; the first sleep is the initial delay and
each later sleep is the previous delay multiplied by the exponential
base, capped at the maximum, plus jitter from the random draw; that
updated delay never exceeds the maximum plus ten percent when the draw is
in `[0, 1]`. -/
theorem C8_retry_backoff {E T : Type} (cfg : LFH.RetryConfig)
    (outcomes : Nat → Except E T) (rands : Nat → ℚ) :
    (∀ v : T, outcomes 0 = Except.ok v →
      LFH.retry_operation cfg outcomes rands = (Except.ok v, [])) ∧
    (∀ (idx fuel delay : Nat) (v : T), outcomes idx = Except.ok v →
      LFH.retryGo cfg outcomes rands fuel idx delay = (Except.ok v, [])) ∧
    (∀ errs : Nat → E, (∀ i, outcomes i = Except.error (errs i)) →
      (LFH.retry_operation cfg outcomes rands).1 =
          Except.error (errs cfg.maxRetries) ∧
        (LFH.retry_operation cfg outcomes rands).2.length = cfg.maxRetries) ∧
    (∀ errs : Nat → E, (∀ i, outcomes i = Except.error (errs i)) →
      (0 < cfg.maxRetries →
        (LFH.retry_operation cfg outcomes rands).2.getD 0 0 =
          cfg.initialDelayMs) ∧
      (∀ j, j + 1 < cfg.maxRetries →
        (LFH.retry_operation cfg outcomes rands).2.getD (j + 1) 0 =
          LFH.nextDelay cfg
            ((LFH.retry_operation cfg outcomes rands).2.getD j 0) (rands j))) ∧
    (∀ (delay : Nat) (r : ℚ), 0 ≤ r → r ≤ 1 →
      LFH.nextDelay cfg delay r ≤ cfg.maxDelayMs + cfg.maxDelayMs / 10) := by
  refine ⟨?_, ?_, ?_, ?_, ?_⟩
  · intro v h
    exact retryGo_ok cfg outcomes rands 0 v h cfg.maxRetries cfg.initialDelayMs
  · intro idx fuel delay v h
    exact retryGo_ok cfg outcomes rands idx v h fuel delay
  · intro errs h
    obtain ⟨h1, h2⟩ :=
      retryGo_all_fail cfg outcomes rands errs h cfg.maxRetries 0 cfg.initialDelayMs
    exact ⟨by simpa [LFH.retry_operation] using h1,
      by simpa [LFH.retry_operation] using h2⟩
  · intro errs h
    constructor
    · intro hpos
      simpa [LFH.retry_operation] using
        retryGo_sleeps_zero cfg outcomes rands errs h cfg.maxRetries 0
          cfg.initialDelayMs hpos
    · intro j hj
      simpa [LFH.retry_operation] using
        retryGo_sleeps_succ cfg outcomes rands errs h cfg.maxRetries 0
          cfg.initialDelayMs j hj
  · intro delay r h0 h1
    exact nextDelay_le cfg delay r h0 h1

/-- C8 witness: with the default configuration, a constant success returns
immediately with no sleeps, a constant failure is propagated after
`max_retries` sleeps, and the delay update with draw `0` stays within the
cap-plus-ten-percent bound. -/
theorem C8_witness :
    ((fun _ : Nat => (Except.ok 42 : Except String Nat)) 0 = Except.ok 42 ∧
      LFH.retry_operation LFH.RetryConfig.default
          (fun _ => (Except.ok 42 : Except String Nat)) (fun _ => 0) =
        (Except.ok 42, [])) ∧
    ((∀ i : Nat, (fun _ : Nat => (Except.error ("boom") : Except String Nat)) i =
        Except.error ("boom")) ∧
      (LFH.retry_operation LFH.RetryConfig.default
          (fun _ => (Except.error ("boom") : Except String Nat)) (fun _ => 0)).1 =
        Except.error ("boom") ∧
      (LFH.retry_operation LFH.RetryConfig.default
          (fun _ => (Except.error ("boom") : Except String Nat))
          (fun _ => 0)).2.length = LFH.RetryConfig.default.maxRetries) ∧
    ((0 : ℚ) ≤ 0 ∧ (0 : ℚ) ≤ 1 ∧
      LFH.nextDelay LFH.RetryConfig.default 1000 0 ≤
        LFH.RetryConfig.default.maxDelayMs +
          LFH.RetryConfig.default.maxDelayMs / 10) :=
  ⟨⟨rfl,
    (C8_retry_backoff LFH.RetryConfig.default
      (fun _ => (Except.ok 42 : Except String Nat)) (fun _ => 0)).1 42 rfl⟩,
   ⟨fun _ => rfl,
    ((C8_retry_backoff LFH.RetryConfig.default
      (fun _ => (Except.error ("boom") : Except String Nat)) (fun _ => 0)).2.2.1
        (fun _ => "boom") (fun _ => rfl)).1,
    ((C8_retry_backoff LFH.RetryConfig.default
      (fun _ => (Except.error ("boom") : Except String Nat)) (fun _ => 0)).2.2.1
        (fun _ => "boom") (fun _ => rfl)).2⟩,
   ⟨by decide, by decide,
    (C8_retry_backoff LFH.RetryConfig.default
      (fun _ => (Except.error ("boom") : Except String Nat))
      (fun _ => 0)).2.2.2.2 1000 0 (by decide) (by decide)⟩⟩

/-- C1: for every hash/HMAC implementation, credentials, method, path,
payload and timestamp, `sign_request` builds the canonical request as
METHOD, canonical path, query string, the `host` /
`x-amz-content-sha256` / `x-amz-date` canonical headers, a blank line,
the signed-header names and the hex SHA-256 payload hash joined by
newlines; derives the signing key by four chained HMAC applications
starting from `AWS4` + secret, keyed in order by the short date, `auto`,
`s3`, `aws4_request`; builds the string-to-sign from the algorithm id,
timestamp, `date/auto/s3/aws4_request` scope and canonical-request hash;
and assembles the authorization header from the access key, that scope,
the signed-header list and the hex HMAC of the string-to-sign under the
derived key. -/
theorem C1_sign_request_spec (sha256 : List Nat → List Nat)
    (hmac : List Nat → List Nat → List Nat)
    (accessKeyId secretAccessKey accountId method path : String)
    (payload : List Nat) (dateStr dateShort : String) :
    (R2C.sign_request sha256 hmac accessKeyId secretAccessKey accountId
        method path payload dateStr dateShort).payloadHash =
      R2C.hexEncode (sha256 payload) ∧
    (R2C.sign_request sha256 hmac accessKeyId secretAccessKey accountId
        method path payload dateStr dateShort).canonicalRequest =
      String.intercalate ("\n")
        [method,
          (R2C.sign_request sha256 hmac accessKeyId secretAccessKey accountId
            method path payload dateStr dateShort).pathOnly,
          (R2C.sign_request sha256 hmac accessKeyId secretAccessKey accountId
            method path payload dateStr dateShort).queryString,
          "host:" ++ (accountId ++ ".r2.cloudflarestorage.com"),
          "x-amz-content-sha256:" ++ R2C.hexEncode (sha256 payload),
          "x-amz-date:" ++ dateStr,
          "",
          "host;x-amz-content-sha256;x-amz-date",
          R2C.hexEncode (sha256 payload)] ∧
    (R2C.sign_request sha256 hmac accessKeyId secretAccessKey accountId
        method path payload dateStr dateShort).signingKey =
      hmac (hmac (hmac (hmac (R2C.strBytes ("AWS4" ++ secretAccessKey))
        (R2C.strBytes dateShort)) (R2C.strBytes ("auto"))) (R2C.strBytes ("s3")))
        (R2C.strBytes ("aws4_request")) ∧
    (R2C.sign_request sha256 hmac accessKeyId secretAccessKey accountId
        method path payload dateStr dateShort).stringToSign =
      String.intercalate ("\n")
        ["AWS4-HMAC-SHA256", dateStr, dateShort ++ "/auto/s3/aws4_request",
          R2C.hexEncode (sha256 (R2C.strBytes
            (R2C.sign_request sha256 hmac accessKeyId secretAccessKey accountId
              method path payload dateStr dateShort).canonicalRequest))] ∧
    (R2C.sign_request sha256 hmac accessKeyId secretAccessKey accountId
        method path payload dateStr dateShort).authorization =
      "AWS4-HMAC-SHA256 Credential=" ++ accessKeyId ++ "/" ++
        (dateShort ++ "/auto/s3/aws4_request") ++ ", SignedHeaders=" ++
        "host;x-amz-content-sha256;x-amz-date" ++ ", Signature=" ++
        R2C.hexEncode (hmac
          (R2C.sign_request sha256 hmac accessKeyId secretAccessKey accountId
            method path payload dateStr dateShort).signingKey
          (R2C.strBytes
            (R2C.sign_request sha256 hmac accessKeyId secretAccessKey accountId
              method path payload dateStr dateShort).stringToSign)) := by
  refine ⟨rfl, ?_, ?_, ?_, ?_⟩
  · simp only [R2C.sign_request]
    apply String.ext
    simp [String.intercalate, String.intercalate.go, String.data_append,
      List.append_assoc]
  · rfl
  · simp only [R2C.sign_request]
    apply String.ext
    simp [String.intercalate, String.intercalate.go, String.data_append,
      List.append_assoc]
  · simp only [R2C.sign_request]
